import Mathlib

/-!
Shallow embedding of the recent-searches store
(`getRecentSearches`, `setRecentSearches`, `appendRecentSearchesStore`,
`clearRecentSearchesStore`, and the `dispatchAppend` wrapper of
`useRecentSearch`) together with the persistence layer it uses
(`getLocalStorageItem`, `setLocalStorageItem`, `removeLocalStorageItem`).

Modelling choices, stated once here:
* A parsed JSON document is an inductive `Json` value (numbers as `Int`;
  no claim depends on fractional numbers, only on truthiness and shape).
* A persisted payload is `Payload`: either the empty string, a string that
  fails `JSON.parse`, or a string that parses to a `Json` value.  The store
  is a key-indexed association list of payloads.
* A JavaScript `Date` object is `JsDate`, carrying the string it was built
  from.  The code under analysis never inspects a date's contents: a `Date`
  object is always truthy, so validity plays no role in loading.  Date
  semantics (which strings are valid dates, what `new Date()` renders to)
  is a parameter `DateSem`; theorems quantify over every well-formed
  semantics, so they hold in particular for JavaScript's.
* Fallible persistence primitives take an explicit failure flag and return
  `Except Unit`; rejected promises are `Except.error ()`.
* The un-awaited `setRecentSearches(key, freshData)` call inside
  `appendRecentSearchesStore` is a fire-and-forget write: its rejection
  never reaches the caller, so the append returns `Except.ok ()` whatever
  the write does, while the state reflects whether the write succeeded.
-/

/-- A JSON value as produced by `JSON.parse`. -/
inductive Json where
  | null : Json
  | bool : Bool → Json
  | num : Int → Json
  | str : String → Json
  | arr : List Json → Json
  | obj : List (String × Json) → Json

/-- JavaScript truthiness of a parsed JSON value. -/
def Json.truthy : Json → Bool
  | Json.null => false
  | Json.bool b => b
  | Json.num n => n != 0
  | Json.str s => s != ""
  | Json.arr _ => true
  | Json.obj _ => true

/-- JavaScript `Array.isArray`. -/
def Json.isArr : Json → Bool
  | Json.arr _ => true
  | _ => false

/-- First binding of a field name in an object's field list. -/
def lookupField : List (String × Json) → String → Option Json
  | [], _ => none
  | (k, v) :: rest, name => if k = name then some v else lookupField rest name

/-- JavaScript property access `r.name` on a parsed JSON value: throws a
`TypeError` on `null`, yields the field on objects, and `undefined`
(`none`) on every other value. -/
def Json.getField : Json → String → Except Unit (Option Json)
  | Json.null, _ => Except.error ()
  | Json.obj fields, name => Except.ok (lookupField fields name)
  | _, _ => Except.ok none

/-- JavaScript `x || undefined`: a falsy value collapses to `undefined`. -/
def jsOrUndefined : Option Json → Option Json
  | none => none
  | some j => if j.truthy then some j else none

/-- A JavaScript `Date` object, represented by the string it was
constructed from (`new Date(src)`).  The store's code never inspects a
date beyond its truthiness, which holds for every `Date` object. -/
structure JsDate where
  src : String
deriving DecidableEq

/-- The date semantics the embedding is parametric in:
`validIso s` is the canonical ISO rendering of `s` when `s` parses as a
valid date (`Date.prototype.toJSON` returns it), `none` when it does not
(`toJSON` returns `null`); `clockIso t` is the ISO rendering of the clock
instant `t` (what `new Date()` made at instant `t` serializes to). -/
structure DateSem where
  validIso : String → Option String
  clockIso : Nat → String

/-- Well-formedness of a date semantics: the clock renders to canonical,
non-empty ISO strings (so re-parsing and re-serializing them is the
identity, as it is for `Date.prototype.toISOString` output). -/
def DateSem.Wf (sem : DateSem) : Prop :=
  (∀ t, sem.validIso (sem.clockIso t) = some (sem.clockIso t)) ∧
  (∀ t, sem.clockIso t ≠ "")

/-- What `JSON.stringify` emits for a `Date` value: the canonical ISO
string for a valid date, `null` for an invalid one. -/
def dateToJson (sem : DateSem) (d : JsDate) : Json :=
  match sem.validIso d.src with
  | some iso => Json.str iso
  | none => Json.null

/-- The `RecentSearch` interface: `{ text: string; timestamp: Date }`. -/
structure RecentSearch where
  text : String
  timestamp : JsDate
deriving DecidableEq

/-- A raw persisted payload, abstracted by its `JSON.parse` behaviour:
the empty string (falsy before parsing), a string that makes `JSON.parse`
throw, or a string parsing to a `Json` value. -/
inductive Payload where
  | empty : Payload
  | invalid : Payload
  | json : Json → Payload

/-- The host's key-value storage: an association list keyed by `String`. -/
abbrev Store := List (String × Payload)

def storeGet : Store → String → Option Payload
  | [], _ => none
  | (k, v) :: rest, key => if k = key then some v else storeGet rest key

def storeSet : Store → String → Payload → Store
  | [], key, v => [(key, v)]
  | (k, w) :: rest, key, v =>
    if k = key then (key, v) :: rest else (k, w) :: storeSet rest key v

def storeRemove : Store → String → Store
  | [], _ => []
  | (k, w) :: rest, key =>
    if k = key then storeRemove rest key else (k, w) :: storeRemove rest key

/-- Model of `getLocalStorageItem`: resolves to the stored payload, or rejects when
the failure flag is set. -/
def getLocalStorageItem (st : Store) (key : String) (fail : Bool) :
    Except Unit (Option Payload) :=
  if fail then Except.error () else Except.ok (storeGet st key)

/-- Model of `setLocalStorageItem`: persists the payload, or rejects leaving the
store unchanged. -/
def setLocalStorageItem (st : Store) (key : String) (v : Payload) (fail : Bool) :
    Except Unit Unit × Store :=
  if fail then (Except.error (), st) else (Except.ok (), storeSet st key v)

/-- Model of `removeLocalStorageItem`: deletes the payload, or rejects leaving the
store unchanged. -/
def removeLocalStorageItem (st : Store) (key : String) (fail : Bool) :
    Except Unit Unit × Store :=
  if fail then (Except.error (), st) else (Except.ok (), storeRemove st key)

/-- The tail of one loop iteration of `getRecentSearches`, from the
`r.timestamp` access on: `ts = r.timestamp || undefined`; a non-string
timestamp hits `continue`; otherwise `timestamp = new Date(ts)` and the
entry is pushed exactly when a non-empty `text` was captured (the `Date`
object itself is always truthy). -/
def parseElemTs (r : Json) (text : Option String) :
    Except Unit (Option RecentSearch) :=
  match Json.getField r "timestamp" with
  | Except.error e => Except.error e
  | Except.ok tsField =>
    match jsOrUndefined tsField with
    | some (Json.str s) =>
      match text with
      | some tx =>
        if 0 < tx.length then Except.ok (some ⟨tx, ⟨s⟩⟩) else Except.ok none
      | none => Except.ok none
    | _ => Except.ok none

/-- One loop iteration of `getRecentSearches` over a candidate element:
`t = r.text || undefined`; when `t` is a (necessarily non-empty) string it
is captured as `text`, with the dead `continue` on `text.length <= 0`
kept; property access on a `null` element throws. -/
def parseElem (r : Json) : Except Unit (Option RecentSearch) :=
  match Json.getField r "text" with
  | Except.error e => Except.error e
  | Except.ok tField =>
    match jsOrUndefined tField with
    | some (Json.str s) =>
      if s.length ≤ 0 then Except.ok none else parseElemTs r (some s)
    | _ => parseElemTs r none

/-- The whole `for (const r of json)` loop: a thrown `TypeError` aborts the
loop (and is caught by the enclosing `try`), otherwise the accepted
entries are collected in order. -/
def parseElems : List Json → Except Unit (List RecentSearch)
  | [] => Except.ok []
  | r :: rest =>
    match parseElem r with
    | Except.error e => Except.error e
    | Except.ok head =>
      match parseElems rest with
      | Except.error e => Except.error e
      | Except.ok tail =>
        match head with
        | some entry => Except.ok (entry :: tail)
        | none => Except.ok tail

/-- The `try` block of `getRecentSearches`: read the payload, and when it
is a truthy parsed value, walk it if it is an array; every explicit
`return` yields `some`, matching the declared `RecentSearch[] | undefined`
result type. -/
def getRecentSearchesBody (st : Store) (key : String) (getFail : Bool) :
    Except Unit (Option (List RecentSearch)) :=
  match getLocalStorageItem st key getFail with
  | Except.error e => Except.error e
  | Except.ok store =>
    match store with
    | none => Except.ok (some [])
    | some Payload.empty => Except.ok (some [])
    | some Payload.invalid => Except.error ()
    | some (Payload.json j) =>
      if j.truthy then
        match j with
        | Json.arr elems =>
          match parseElems elems with
          | Except.error e => Except.error e
          | Except.ok result => Except.ok (some result)
        | _ => Except.ok (some [])
      else Except.ok (some [])

/-- Model of `getRecentSearches`: the `try` body with its `catch` that swallows any
error and falls through to `return []`. -/
def getRecentSearches (st : Store) (key : String) (getFail : Bool) :
    Except Unit (Option (List RecentSearch)) :=
  match getRecentSearchesBody st key getFail with
  | Except.ok v => Except.ok v
  | Except.error _ => Except.ok (some [])

/-- Serialization of one `RecentSearch` value by `JSON.stringify`. -/
def entryToJson (sem : DateSem) (e : RecentSearch) : Json :=
  Json.obj [("text", Json.str e.text), ("timestamp", dateToJson sem e.timestamp)]

/-- Model of `setRecentSearches`: serialize the list and persist it. -/
def setRecentSearches (sem : DateSem) (st : Store) (key : String)
    (recentSearches : List RecentSearch) (setFail : Bool) :
    Except Unit Unit × Store :=
  setLocalStorageItem st key
    (Payload.json (Json.arr (recentSearches.map (entryToJson sem)))) setFail

/-- Model of `clearRecentSearchesStore`: a bare awaited `removeLocalStorageItem`,
so a rejection propagates to the caller. -/
def clearRecentSearchesStore (st : Store) (key : String) (removeFail : Bool) :
    Except Unit Unit × Store :=
  removeLocalStorageItem st key removeFail

/-- Model of `appendRecentSearchesStore`: load, prepend, truncate to 20, write
back.  The `setRecentSearches` call is not awaited, so its rejection never
reaches the caller: the result is `Except.ok ()` in every non-loading
branch, while the returned store reflects whether the write landed. -/
def appendRecentSearchesStore (sem : DateSem) (st : Store) (key : String)
    (search : RecentSearch) (getFail setFail : Bool) :
    Except Unit Unit × Store :=
  match getRecentSearches st key getFail with
  | Except.error e => (Except.error e, st)
  | Except.ok data =>
    match data with
    | some l =>
      if 0 < l.length then
        (Except.ok (), (setRecentSearches sem st key ((search :: l).take 20) setFail).2)
      else
        (Except.ok (), (setRecentSearches sem st key [search] setFail).2)
    | none => (Except.ok (), (setRecentSearches sem st key [search] setFail).2)

/-- Model of `dispatchAppend` from `useRecentSearch`: append
`{ text, timestamp: new Date() }`, with the clock instant `t` of the call
made explicit. -/
def dispatchAppend (sem : DateSem) (st : Store) (key : String) (text : String)
    (t : Nat) (getFail setFail : Bool) : Except Unit Unit × Store :=
  appendRecentSearchesStore sem st key ⟨text, ⟨sem.clockIso t⟩⟩ getFail setFail

/-- Run a sequence of `dispatchAppend` calls (text, clock instant) in
order, with the persistence layer succeeding. -/
def appendList (sem : DateSem) (key : String) : Store → List (String × Nat) → Store
  | st, [] => st
  | st, c :: cs => appendList sem key (dispatchAppend sem st key c.1 c.2 false false).2 cs

/-- The entry `dispatchAppend` builds for a (text, clock instant) call. -/
def entryOf (sem : DateSem) (c : String × Nat) : RecentSearch :=
  ⟨c.1, ⟨sem.clockIso c.2⟩⟩

/-- What one serialize/parse cycle does to a stored entry: dropped when
its text is empty, dropped when its date does not re-serialize to a
non-empty string, kept with the canonical ISO rendering otherwise. -/
def roundTripElem (sem : DateSem) (e : RecentSearch) : Option RecentSearch :=
  if e.text = "" then none
  else
    match sem.validIso e.timestamp.src with
    | some iso => if iso = "" then none else some ⟨e.text, ⟨iso⟩⟩
    | none => none

/-- An entry that one serialize/parse cycle maps to itself. -/
def Canonical (sem : DateSem) (e : RecentSearch) : Prop :=
  e.text ≠ "" ∧ sem.validIso e.timestamp.src = some e.timestamp.src ∧
    e.timestamp.src ≠ ""

/-- Length of the raw persisted collection under a key (0 when the payload
is missing or not an array). -/
def storedCollLen (st : Store) (key : String) : Nat :=
  match storeGet st key with
  | some (Payload.json (Json.arr l)) => l.length
  | _ => 0

/-- Length of a load result, for discriminating results. -/
def resultLen : Except Unit (Option (List RecentSearch)) → Nat
  | Except.ok (some l) => l.length
  | _ => 0

/-- Modelled from the spec: the debounce timer of `useDebouncedCallback`
(from the external use-debounce package, not part of this repository's
sources), trailing window `wait`, forced flush after `maxWait`.  The
pending burst is summarized by when it started, the last call time, and
the last submitted argument. -/
structure DebounceState where
  pendingStart : Nat
  lastCall : Nat
  lastArg : String

/-- Modelled from the spec: the instant a pending burst flushes — `wait`
after the last call, but no later than `maxWait` after the burst began. -/
def flushAt (wait maxWait : Nat) (d : DebounceState) : Nat :=
  min (d.lastCall + wait) (d.pendingStart + maxWait)

/-- Modelled from the spec: process time-ordered calls, emitting a flush
(time, argument) whenever the pending burst's flush instant arrives before
the next call, and flushing the final pending burst at the end. -/
def debounceAux (wait maxWait : Nat) :
    Option DebounceState → List (Nat × String) → List (Nat × String)
  | none, [] => []
  | some d, [] => [(flushAt wait maxWait d, d.lastArg)]
  | none, c :: rest => debounceAux wait maxWait (some ⟨c.1, c.1, c.2⟩) rest
  | some d, c :: rest =>
    if flushAt wait maxWait d ≤ c.1 then
      (flushAt wait maxWait d, d.lastArg) ::
        debounceAux wait maxWait (some ⟨c.1, c.1, c.2⟩) rest
    else
      debounceAux wait maxWait (some ⟨d.pendingStart, c.1, c.2⟩) rest

/-- Modelled from the spec: the flushes a time-ordered call sequence
produces. -/
def debounceRun (wait maxWait : Nat) (calls : List (Nat × String)) :
    List (Nat × String) :=
  debounceAux wait maxWait none calls

/-- A concrete well-formed date semantics used to witness theorems: every
non-empty string is its own canonical rendering and the clock is stopped
at a fixed instant. -/
def simpleSem : DateSem :=
  DateSem.mk (fun s => if s = "" then none else some s) (fun _ => "Z")

/-- The malformed persisted payload of the tolerance scenario. -/
def c1Payload : Json :=
  Json.arr
    [Json.obj [("text", Json.str "a")],
     Json.obj [("timestamp", Json.str "2020-01-01")],
     Json.obj [("text", Json.str "b"), ("timestamp", Json.str "not-a-date")],
     Json.obj [("text", Json.str "c"), ("timestamp", Json.str "2021-01-01T00:00:00Z")]]

/-- Twenty-one distinct-text append calls. -/
def calls21 : List (String × Nat) :=
  [("a", 0), ("b", 0), ("c", 0), ("d", 0), ("e", 0), ("f", 0), ("g", 0),
   ("h", 0), ("i", 0), ("j", 0), ("k", 0), ("l", 0), ("m", 0), ("n", 0),
   ("o", 0), ("p", 0), ("q", 0), ("r", 0), ("s", 0), ("t", 0), ("u", 0)]

/-- Twenty-one externally written valid entries. -/
def items21 : List (String × String) := List.replicate 21 ("a", "Z")

/-- The JSON object an external writer would persist for one entry with
the given text and timestamp string. -/
def extEntryJson (p : String × String) : Json :=
  Json.obj [("text", Json.str p.1), ("timestamp", Json.str p.2)]

theorem simpleSem_wf : simpleSem.Wf :=
  ⟨fun _ => rfl, fun _ => show ("Z" : String) ≠ "" by decide⟩

theorem string_not_le_zero (s : String) (h : s ≠ "") : ¬ s.length ≤ 0 := by
  cases s with
  | mk data =>
    cases data with
    | nil => exact absurd rfl h
    | cons a l => simp [String.length]

theorem storeGet_storeSet_self (st : Store) (key : String) (v : Payload) :
    storeGet (storeSet st key v) key = some v := by
  induction st with
  | nil => simp [storeSet, storeGet]
  | cons p rest ih =>
    obtain ⟨k, w⟩ := p
    by_cases h : k = key
    · simp [storeSet, storeGet, h]
    · simp [storeSet, storeGet, h, ih]

theorem parseElem_entryToJson (sem : DateSem) (e : RecentSearch) :
    parseElem (entryToJson sem e) = Except.ok (roundTripElem sem e) := by
  by_cases ht : e.text = ""
  · cases hv : sem.validIso e.timestamp.src with
    | none =>
      simp [entryToJson, parseElem, parseElemTs, Json.getField, lookupField,
        jsOrUndefined, Json.truthy, dateToJson, roundTripElem, ht, hv]
    | some iso =>
      by_cases hi : iso = ""
      · simp [entryToJson, parseElem, parseElemTs, Json.getField, lookupField,
          jsOrUndefined, Json.truthy, dateToJson, roundTripElem, ht, hv, hi]
      · simp [entryToJson, parseElem, parseElemTs, Json.getField, lookupField,
          jsOrUndefined, Json.truthy, dateToJson, roundTripElem, ht, hv, hi]
  · have hlen := string_not_le_zero e.text ht
    have hpos : 0 < e.text.length := Nat.not_le.mp hlen
    cases hv : sem.validIso e.timestamp.src with
    | none =>
      simp [entryToJson, parseElem, parseElemTs, Json.getField, lookupField,
        jsOrUndefined, Json.truthy, dateToJson, roundTripElem, ht, hv, hlen]
    | some iso =>
      by_cases hi : iso = ""
      · simp [entryToJson, parseElem, parseElemTs, Json.getField, lookupField,
          jsOrUndefined, Json.truthy, dateToJson, roundTripElem, ht, hv, hi, hlen]
      · simp [entryToJson, parseElem, parseElemTs, Json.getField, lookupField,
          jsOrUndefined, Json.truthy, dateToJson, roundTripElem, ht, hv, hi, hlen, hpos]

theorem parseElems_map_entryToJson (sem : DateSem) (l : List RecentSearch) :
    parseElems (l.map (entryToJson sem)) = Except.ok (l.filterMap (roundTripElem sem)) := by
  induction l with
  | nil => rfl
  | cons e rest ih =>
    simp only [List.map_cons, parseElems, parseElem_entryToJson, ih, List.filterMap_cons]
    cases roundTripElem sem e <;> simp

theorem roundTripElem_canonical (sem : DateSem) (e : RecentSearch)
    (h : Canonical sem e) : roundTripElem sem e = some e := by
  obtain ⟨h1, h2, h3⟩ := h
  simp [roundTripElem, h1, h2, h3]

theorem filterMap_roundTrip_canonical (sem : DateSem) (l : List RecentSearch)
    (h : ∀ e ∈ l, Canonical sem e) :
    l.filterMap (roundTripElem sem) = l := by
  induction l with
  | nil => rfl
  | cons e rest ih =>
    rw [List.filterMap_cons, roundTripElem_canonical sem e (h e (by simp))]
    simp [ih fun x hx => h x (by simp [hx])]

theorem load_after_set (sem : DateSem) (st : Store) (key : String)
    (l : List RecentSearch) :
    getRecentSearches ((setRecentSearches sem st key l false).2) key false
      = Except.ok (some (l.filterMap (roundTripElem sem))) := by
  have h2 : (setRecentSearches sem st key l false).2
      = storeSet st key (Payload.json (Json.arr (l.map (entryToJson sem)))) := rfl
  rw [h2]
  simp [getRecentSearches, getRecentSearchesBody, getLocalStorageItem,
    storeGet_storeSet_self, Json.truthy, parseElems_map_entryToJson]

theorem getRecentSearches_total (st : Store) (key : String) (f : Bool) :
    ∃ l, getRecentSearches st key f = Except.ok (some l) := by
  cases f with
  | true => exact ⟨[], rfl⟩
  | false =>
    cases hsg : storeGet st key with
    | none =>
      exact ⟨[], by simp [getRecentSearches, getRecentSearchesBody, getLocalStorageItem, hsg]⟩
    | some p =>
      cases p with
      | empty =>
        exact ⟨[], by simp [getRecentSearches, getRecentSearchesBody, getLocalStorageItem, hsg]⟩
      | invalid =>
        exact ⟨[], by simp [getRecentSearches, getRecentSearchesBody, getLocalStorageItem, hsg]⟩
      | json j =>
        by_cases hj : j.truthy
        · cases j with
          | arr elems =>
            cases hp : parseElems elems with
            | error e =>
              exact ⟨[], by
                simp [getRecentSearches, getRecentSearchesBody, getLocalStorageItem, hsg, hj, hp]⟩
            | ok r =>
              exact ⟨r, by
                simp [getRecentSearches, getRecentSearchesBody, getLocalStorageItem, hsg, hj, hp]⟩
          | null =>
            exact ⟨[], by
              simp [getRecentSearches, getRecentSearchesBody, getLocalStorageItem, hsg, hj]⟩
          | bool b =>
            exact ⟨[], by
              simp [getRecentSearches, getRecentSearchesBody, getLocalStorageItem, hsg, hj]⟩
          | num n =>
            exact ⟨[], by
              simp [getRecentSearches, getRecentSearchesBody, getLocalStorageItem, hsg, hj]⟩
          | str s =>
            exact ⟨[], by
              simp [getRecentSearches, getRecentSearchesBody, getLocalStorageItem, hsg, hj]⟩
          | obj fields =>
            exact ⟨[], by
              simp [getRecentSearches, getRecentSearchesBody, getLocalStorageItem, hsg, hj]⟩
        · exact ⟨[], by
            simp [getRecentSearches, getRecentSearchesBody, getLocalStorageItem, hsg, hj]⟩

theorem load_absent (st : Store) (key : String) (h : storeGet st key = none) :
    getRecentSearches st key false = Except.ok (some []) := by
  simp [getRecentSearches, getRecentSearchesBody, getLocalStorageItem, h]

theorem appendStore_effect (sem : DateSem) (st : Store) (key : String)
    (e : RecentSearch) (d : List RecentSearch)
    (h : getRecentSearches st key false = Except.ok (some d)) :
    appendRecentSearchesStore sem st key e false false
      = (Except.ok (),
         storeSet st key (Payload.json (Json.arr
           (((e :: d).take 20).map (entryToJson sem))))) := by
  unfold appendRecentSearchesStore
  rw [h]
  cases d with
  | nil => simp [setRecentSearches, setLocalStorageItem]
  | cons a l => simp [setRecentSearches, setLocalStorageItem]

theorem take_append_take {α : Type} (A l : List α) (n : Nat) :
    (A ++ l.take n).take n = (A ++ l).take n := by
  rw [List.take_append_eq_append_take, List.take_append_eq_append_take, List.take_take]
  rw [min_eq_left (Nat.sub_le n A.length)]

theorem appendList_spec (sem : DateSem) (hw : sem.Wf) (key : String) :
    ∀ (calls : List (String × Nat)) (st : Store) (d : List RecentSearch),
      (∀ c ∈ calls, c.1 ≠ "") →
      getRecentSearches st key false = Except.ok (some d) →
      (∀ x ∈ d, Canonical sem x) → d.length ≤ 20 →
      getRecentSearches (appendList sem key st calls) key false
        = Except.ok (some (((calls.map (entryOf sem)).reverse ++ d).take 20))
      ∧ (calls ≠ [] → storeGet (appendList sem key st calls) key
          = some (Payload.json (Json.arr
              ((((calls.map (entryOf sem)).reverse ++ d).take 20).map
                (entryToJson sem))))) := by
  intro calls
  induction calls with
  | nil =>
    intro st d hne hload hcan hlen
    refine ⟨?_, fun h => absurd rfl h⟩
    simpa [appendList, List.take_of_length_le hlen] using hload
  | cons c cs ih =>
    intro st d hne hload hcan hlen
    have hcanE : Canonical sem (entryOf sem c) :=
      ⟨hne c (by simp), hw.1 c.2, hw.2 c.2⟩
    have heff := appendStore_effect sem st key (entryOf sem c) d hload
    have hstep : appendList sem key st (c :: cs)
        = appendList sem key
            (storeSet st key (Payload.json (Json.arr
              (((entryOf sem c :: d).take 20).map (entryToJson sem))))) cs := by
      show appendList sem key (dispatchAppend sem st key c.1 c.2 false false).2 cs = _
      rw [show dispatchAppend sem st key c.1 c.2 false false
            = appendRecentSearchesStore sem st key (entryOf sem c) false false from rfl,
        heff]
    have hcan' : ∀ x ∈ (entryOf sem c :: d).take 20, Canonical sem x := by
      intro x hx
      rcases List.mem_cons.mp (List.mem_of_mem_take hx) with h1 | h2
      · exact h1 ▸ hcanE
      · exact hcan x h2
    have hload' : getRecentSearches
        (storeSet st key (Payload.json (Json.arr
          (((entryOf sem c :: d).take 20).map (entryToJson sem))))) key false
        = Except.ok (some ((entryOf sem c :: d).take 20)) := by
      have h := load_after_set sem st key ((entryOf sem c :: d).take 20)
      rw [filterMap_roundTrip_canonical sem _ hcan'] at h
      exact h
    have hlen' : ((entryOf sem c :: d).take 20).length ≤ 20 := by
      rw [List.length_take]; exact min_le_left _ _
    have hne' : ∀ x ∈ cs, x.1 ≠ "" := fun x hx => hne x (by simp [hx])
    obtain ⟨ih1, ih2⟩ := ih _ _ hne' hload' hcan' hlen'
    have hlist : ((cs.map (entryOf sem)).reverse ++ (entryOf sem c :: d).take 20).take 20
        = (((c :: cs).map (entryOf sem)).reverse ++ d).take 20 := by
      rw [List.map_cons, List.reverse_cons, List.append_assoc, List.singleton_append,
        take_append_take]
    constructor
    · rw [hstep, ih1, hlist]
    · intro _
      cases cs with
      | nil =>
        rw [hstep]
        show storeGet (storeSet st key _) key = _
        rw [storeGet_storeSet_self]
        have hl2 : (entryOf sem c :: d).take 20
            = ((([c].map (entryOf sem)).reverse ++ d).take 20) := by
          simp
        rw [← hl2]
      | cons c2 cs2 =>
        rw [hstep]
        have h2 := ih2 (by simp)
        rw [hlist] at h2
        exact h2

theorem parseElem_extEntry (p : String × String) (h1 : p.1 ≠ "") (h2 : p.2 ≠ "") :
    parseElem (extEntryJson p) = Except.ok (some ⟨p.1, ⟨p.2⟩⟩) := by
  have hlen := string_not_le_zero p.1 h1
  have hpos : 0 < p.1.length := Nat.not_le.mp hlen
  simp [extEntryJson, parseElem, parseElemTs, Json.getField, lookupField,
    jsOrUndefined, Json.truthy, h1, h2, hlen, hpos]

theorem parseElems_ext (items : List (String × String))
    (h : ∀ p ∈ items, p.1 ≠ "" ∧ p.2 ≠ "") :
    parseElems (items.map extEntryJson)
      = Except.ok (items.map fun p => ⟨p.1, ⟨p.2⟩⟩) := by
  induction items with
  | nil => rfl
  | cons p rest ih =>
    have hp := h p (by simp)
    simp only [List.map_cons, parseElems, parseElem_extEntry p hp.1 hp.2,
      ih fun q hq => h q (by simp [hq])]

theorem load_after_dispatch (sem : DateSem) (hw : sem.Wf) (st : Store) (key : String)
    (tx : String) (t : Nat) (htx : tx ≠ "") (d : List RecentSearch)
    (hload : getRecentSearches st key false = Except.ok (some d)) :
    getRecentSearches ((dispatchAppend sem st key tx t false false).2) key false
      = Except.ok (some ((⟨tx, ⟨sem.clockIso t⟩⟩ : RecentSearch) ::
          (d.take 19).filterMap (roundTripElem sem))) := by
  have heff := appendStore_effect sem st key ⟨tx, ⟨sem.clockIso t⟩⟩ d hload
  have hst : (dispatchAppend sem st key tx t false false).2
      = (setRecentSearches sem st key
          ((⟨tx, ⟨sem.clockIso t⟩⟩ : RecentSearch) :: d.take 19) false).2 := by
    show (appendRecentSearchesStore sem st key ⟨tx, ⟨sem.clockIso t⟩⟩ false false).2 = _
    rw [heff]
    rfl
  rw [hst, load_after_set, List.filterMap_cons,
    roundTripElem_canonical sem _ ⟨htx, hw.1 t, hw.2 t⟩]

/-- C1 (counterexample): on the persisted payload of the tolerance
scenario, `load` does not return exactly the single entry the claim
states — the entry with text "b" and the unparseable timestamp
"not-a-date" is also accepted, because `new Date("not-a-date")` is an
(always truthy) Invalid Date object and validity is never checked. -/
theorem c1_load_counterexample :
    getRecentSearches [("k", Payload.json c1Payload)] "k" false
      ≠ Except.ok (some [⟨"c", ⟨"2021-01-01T00:00:00Z"⟩⟩]) :=
  fun h => absurd (congrArg resultLen h) (by decide)

/-- C1 (amended): on the persisted payload
`[{"text":"a"},{"timestamp":"2020-01-01"},{"text":"b","timestamp":"not-a-date"},{"text":"c","timestamp":"2021-01-01T00:00:00Z"}]`,
`load` returns exactly two entries, `{text:"b", timestamp: new
Date("not-a-date")}` and `{text:"c", timestamp: new
Date("2021-01-01T00:00:00Z")}`: an element is accepted exactly when it has
a non-empty string `text` field and a non-empty string `timestamp` field —
whether the timestamp string parses as a valid date is not checked — and
every other element is silently dropped. -/
theorem c1_malformed_tolerance_amended :
    getRecentSearches [("k", Payload.json c1Payload)] "k" false
      = Except.ok (some [⟨"b", ⟨"not-a-date"⟩⟩, ⟨"c", ⟨"2021-01-01T00:00:00Z"⟩⟩]) := rfl

/-- C2 (counterexample): appending the empty string is not a no-op on the
persisted state — starting from an empty store, `append(k, "")` leaves the
store with a persisted payload under `k`. -/
theorem c2_empty_text_counterexample :
    (dispatchAppend simpleSem [] "k" "" 0 false false).2 ≠ ([] : Store) :=
  fun h => absurd (congrArg (fun s => storedCollLen s "k") h) (by decide)

/-- C2 (amended): `append(key, "")` is not rejected: it persists a new
entry with empty text (and, when the store already holds 20 entries,
pushes the oldest one out).  `load`, however, never returns an entry with
empty text, so the loaded list gains no new entry — it is the previous
list truncated to 19.  Whitespace-only text such as " " is persisted and
returned like any other non-empty text. -/
theorem c2_empty_text_amended (sem : DateSem) (hw : sem.Wf) (st : Store)
    (key : String) (t : Nat) (d : List RecentSearch)
    (hload : getRecentSearches st key false = Except.ok (some d))
    (hcan : ∀ e ∈ d, Canonical sem e) :
    storeGet ((dispatchAppend sem st key "" t false false).2) key
      = some (Payload.json (Json.arr
          (((⟨"", ⟨sem.clockIso t⟩⟩ : RecentSearch) :: d.take 19).map (entryToJson sem))))
    ∧ getRecentSearches ((dispatchAppend sem st key "" t false false).2) key false
      = Except.ok (some (d.take 19))
    ∧ getRecentSearches ((dispatchAppend sem st key " " t false false).2) key false
      = Except.ok (some ((⟨" ", ⟨sem.clockIso t⟩⟩ : RecentSearch) :: d.take 19)) := by
  have hcan19 : ∀ e ∈ d.take 19, Canonical sem e :=
    fun e he => hcan e (List.mem_of_mem_take he)
  have heff := appendStore_effect sem st key ⟨"", ⟨sem.clockIso t⟩⟩ d hload
  have hst : (dispatchAppend sem st key "" t false false).2
      = (setRecentSearches sem st key
          ((⟨"", ⟨sem.clockIso t⟩⟩ : RecentSearch) :: d.take 19) false).2 := by
    show (appendRecentSearchesStore sem st key ⟨"", ⟨sem.clockIso t⟩⟩ false false).2 = _
    rw [heff]
    rfl
  refine ⟨?_, ?_, ?_⟩
  · rw [hst]
    show storeGet (storeSet st key _) key = _
    rw [storeGet_storeSet_self]
  · rw [hst, load_after_set, List.filterMap_cons]
    have hdrop : roundTripElem sem ⟨"", ⟨sem.clockIso t⟩⟩ = none := by
      simp [roundTripElem]
    rw [hdrop, filterMap_roundTrip_canonical sem _ hcan19]
  · rw [load_after_dispatch sem hw st key " " t (by decide) d hload,
      filterMap_roundTrip_canonical sem _ hcan19]

/-- C2 (witness): the amended statement at an empty store. -/
theorem c2_empty_text_amended_witness :
    getRecentSearches ((dispatchAppend simpleSem [] "k" "" 0 false false).2) "k" false
      = Except.ok (some (([] : List RecentSearch).take 19)) :=
  (c2_empty_text_amended simpleSem simpleSem_wf [] "k" 0 [] rfl
    (fun e he => absurd he (List.not_mem_nil e))).2.1

/-- C3 (counterexample): `clear` does raise to its caller when the
underlying remove rejects. -/
theorem c3_clear_raises_counterexample :
    (clearRecentSearchesStore [] "k" true).1 = Except.error () := rfl

/-- C3 (amended): `load` never raises (it resolves to a list for every
store state and read failure), and `append` never raises to its caller —
even when the write fails, since the write is not awaited, in which case
the store is left unchanged (write dropped).  `clear`, however, propagates
a failure of the underlying remove to its caller; on success it removes
the payload. -/
theorem c3_failure_semantics_amended (sem : DateSem) (st : Store) (key : String)
    (e : RecentSearch) (f gf sf : Bool) :
    (∃ l, getRecentSearches st key f = Except.ok (some l))
    ∧ (appendRecentSearchesStore sem st key e gf sf).1 = Except.ok ()
    ∧ (appendRecentSearchesStore sem st key e gf true).2 = st
    ∧ clearRecentSearchesStore st key true = (Except.error (), st)
    ∧ clearRecentSearchesStore st key false = (Except.ok (), storeRemove st key) := by
  refine ⟨getRecentSearches_total st key f, ?_, ?_, rfl, rfl⟩
  · obtain ⟨l, hl⟩ := getRecentSearches_total st key gf
    unfold appendRecentSearchesStore
    rw [hl]
    cases l with
    | nil => rfl
    | cons a tl => simp
  · obtain ⟨l, hl⟩ := getRecentSearches_total st key gf
    unfold appendRecentSearchesStore
    rw [hl]
    cases l with
    | nil => rfl
    | cons a tl => simp [setRecentSearches, setLocalStorageItem]

/-- C4: starting from a key with no persisted payload, any sequence of
N ≥ 21 `append` calls with distinct non-empty texts leaves `load`
returning exactly 20 entries — the entries of the 20 most recent appends,
most-recent-first — and the persisted collection length never exceeds 20
at any point of the sequence. -/
theorem c4_capacity_bound (sem : DateSem) (hw : sem.Wf) (st : Store) (key : String)
    (calls : List (String × Nat)) (habs : storeGet st key = none)
    (hlen : 21 ≤ calls.length) (hne : ∀ c ∈ calls, c.1 ≠ "")
    (hnodup : (calls.map Prod.fst).Nodup) :
    getRecentSearches (appendList sem key st calls) key false
      = Except.ok (some (((calls.map (entryOf sem)).reverse).take 20))
    ∧ (((calls.map (entryOf sem)).reverse).take 20).length = 20
    ∧ ∀ n, storedCollLen (appendList sem key st (calls.take n)) key ≤ 20 := by
  have hload0 := load_absent st key habs
  have hcan0 : ∀ x ∈ ([] : List RecentSearch), Canonical sem x :=
    fun x hx => absurd hx (List.not_mem_nil x)
  refine ⟨?_, ?_, ?_⟩
  · have h := (appendList_spec sem hw key calls st [] hne hload0 hcan0 (by simp)).1
    simpa using h
  · rw [List.length_take, List.length_reverse, List.length_map]
    omega
  · intro n
    cases hn : calls.take n with
    | nil =>
      simp [appendList, storedCollLen, habs]
    | cons c cs =>
      have hne2 : ∀ c2 ∈ calls.take n, c2.1 ≠ "" :=
        fun c2 hc2 => hne c2 (List.mem_of_mem_take hc2)
      have h2 := (appendList_spec sem hw key (calls.take n) st [] hne2 hload0 hcan0
        (by simp)).2 (by rw [hn]; exact List.cons_ne_nil c cs)
      rw [hn] at h2
      simp only [storedCollLen, h2]
      rw [List.length_map, List.length_take]
      exact min_le_left _ _

/-- C4 (witness): twenty-one distinct single-letter appends from an empty
store leave exactly 20 loadable entries. -/
theorem c4_capacity_bound_witness :
    (((calls21.map (entryOf simpleSem)).reverse).take 20).length = 20 :=
  (c4_capacity_bound simpleSem simpleSem_wf [] "k" calls21 rfl (by decide)
    (by decide) (by decide)).2.1

/-- C5: for every key and every starting store state, `append(key,
"foo")` issued at clock instant `t` followed by `load(key)` yields a
sequence whose first element has text "foo" and whose timestamp is the
date recorded at that instant (the model makes the call's clock instant
explicit, so "within the call's execution window" is exactly `t`). -/
theorem c5_round_trip (sem : DateSem) (hw : sem.Wf) (st : Store) (key : String)
    (t : Nat) :
    ∃ rest, getRecentSearches ((dispatchAppend sem st key "foo" t false false).2) key false
      = Except.ok (some ((⟨"foo", ⟨sem.clockIso t⟩⟩ : RecentSearch) :: rest)) := by
  obtain ⟨d, hd⟩ := getRecentSearches_total st key false
  exact ⟨(d.take 19).filterMap (roundTripElem sem),
    load_after_dispatch sem hw st key "foo" t (by decide) d hd⟩

/-- C5 (witness): the round trip at an empty store with the witness date
semantics. -/
theorem c5_round_trip_witness :
    ∃ rest, getRecentSearches ((dispatchAppend simpleSem [] "k" "foo" 0 false false).2) "k" false
      = Except.ok (some ((⟨"foo", ⟨simpleSem.clockIso 0⟩⟩ : RecentSearch) :: rest)) :=
  c5_round_trip simpleSem simpleSem_wf [] "k" 0

/-- C6: whenever no payload is persisted under the key, or the payload is
the empty string, fails `JSON.parse`, or parses to a non-array value,
`load` returns the empty list and no error propagates (also under a read
failure). -/
theorem c6_load_recovers (st : Store) (key : String) (f : Bool)
    (h : match storeGet st key with
         | none => True
         | some Payload.empty => True
         | some Payload.invalid => True
         | some (Payload.json j) => j.isArr = false) :
    getRecentSearches st key f = Except.ok (some []) := by
  cases f with
  | true => rfl
  | false =>
    cases hsg : storeGet st key with
    | none => simp [getRecentSearches, getRecentSearchesBody, getLocalStorageItem, hsg]
    | some p =>
      cases p with
      | empty => simp [getRecentSearches, getRecentSearchesBody, getLocalStorageItem, hsg]
      | invalid => simp [getRecentSearches, getRecentSearchesBody, getLocalStorageItem, hsg]
      | json j =>
        rw [hsg] at h
        cases j with
        | arr elems => exact absurd h (by simp [Json.isArr])
        | null =>
          simp [getRecentSearches, getRecentSearchesBody, getLocalStorageItem, hsg, Json.truthy]
        | bool b =>
          cases b <;>
            simp [getRecentSearches, getRecentSearchesBody, getLocalStorageItem, hsg, Json.truthy]
        | num n =>
          simp [getRecentSearches, getRecentSearchesBody, getLocalStorageItem, hsg, Json.truthy]
        | str s =>
          simp [getRecentSearches, getRecentSearchesBody, getLocalStorageItem, hsg, Json.truthy]
        | obj fields =>
          simp [getRecentSearches, getRecentSearchesBody, getLocalStorageItem, hsg, Json.truthy]

/-- C6 (witness): a payload that fails to parse loads as the empty list. -/
theorem c6_load_recovers_witness :
    getRecentSearches [("k", Payload.invalid)] "k" false = Except.ok (some []) :=
  c6_load_recovers [("k", Payload.invalid)] "k" false True.intro

/-- C7: three debounced submissions "a", "ab", "abc" arriving in order,
each within 1500 time-units of the previous one (so the burst spans less
than the 3000 maximum wait and no forced flush occurs), coalesce into
exactly one flush carrying the last submitted text "abc", at the earlier
of 1500 after the last call and 3000 after the first; executing the
flushed appends on a key with no payload persists exactly one entry with
text "abc".  The debounce timer is modelled from the spec, since
`useDebouncedCallback` comes from the external use-debounce package. -/
theorem c7_debounce_coalescing (sem : DateSem) (hw : sem.Wf) (st : Store)
    (key : String) (t1 t2 t3 : Nat) (h12 : t1 ≤ t2) (h23 : t2 ≤ t3)
    (g12 : t2 < t1 + 1500) (g23 : t3 < t2 + 1500)
    (habs : storeGet st key = none) :
    debounceRun 1500 3000 [(t1, "a"), (t2, "ab"), (t3, "abc")]
      = [(min (t3 + 1500) (t1 + 3000), "abc")]
    ∧ getRecentSearches
        (appendList sem key st
          ((debounceRun 1500 3000 [(t1, "a"), (t2, "ab"), (t3, "abc")]).map
            (fun p => (p.2, p.1)))) key false
      = Except.ok (some [(⟨"abc", ⟨sem.clockIso (min (t3 + 1500) (t1 + 3000))⟩⟩ : RecentSearch)]) := by
  have hrun : debounceRun 1500 3000 [(t1, "a"), (t2, "ab"), (t3, "abc")]
      = [(min (t3 + 1500) (t1 + 3000), "abc")] := by
    simp only [debounceRun, debounceAux, flushAt]
    rw [if_neg (show ¬ ((t1 + 1500) ⊓ (t1 + 3000) ≤ t2) by omega),
      if_neg (show ¬ ((t2 + 1500) ⊓ (t1 + 3000) ≤ t3) by omega)]
  refine ⟨hrun, ?_⟩
  rw [hrun]
  have h := (appendList_spec sem hw key [("abc", min (t3 + 1500) (t1 + 3000))] st []
    (by
      intro c hc
      simp only [List.mem_singleton] at hc
      subst hc
      exact (show ("abc" : String) ≠ "" by decide))
    (load_absent st key habs) (fun x hx => absurd hx (List.not_mem_nil x)) (by simp)).1
  simpa [entryOf] using h

/-- C7 (witness): the coalescing scenario at instants 0, 10, 20. -/
theorem c7_debounce_coalescing_witness :
    debounceRun 1500 3000 [(0, "a"), (10, "ab"), (20, "abc")]
      = [(min (20 + 1500) (0 + 3000), "abc")] :=
  (c7_debounce_coalescing simpleSem simpleSem_wf [] "k" 0 10 20 (by decide)
    (by decide) (by decide) (by decide) rfl).1

/-- C8: `append` always prepends a fresh entry, with no merging or
uniqueness check: after appending text `tx`, `load` returns the new entry
first, followed by the surviving previous entries; if a surviving previous
entry already carried the same text, `tx` then occurs at least twice in
the loaded list. -/
theorem c8_duplicates_allowed (sem : DateSem) (hw : sem.Wf) (st : Store)
    (key : String) (tx : String) (t : Nat) (htx : tx ≠ "")
    (d : List RecentSearch)
    (hload : getRecentSearches st key false = Except.ok (some d)) :
    getRecentSearches ((dispatchAppend sem st key tx t false false).2) key false
      = Except.ok (some ((⟨tx, ⟨sem.clockIso t⟩⟩ : RecentSearch) ::
          (d.take 19).filterMap (roundTripElem sem)))
    ∧ ∀ e ∈ d.take 19, Canonical sem e → e.text = tx →
        2 ≤ (((⟨tx, ⟨sem.clockIso t⟩⟩ : RecentSearch) ::
              (d.take 19).filterMap (roundTripElem sem)).countP
                (fun x => x.text == tx)) := by
  refine ⟨load_after_dispatch sem hw st key tx t htx d hload, ?_⟩
  intro e he hcanE hetx
  have hmem : e ∈ (d.take 19).filterMap (roundTripElem sem) :=
    List.mem_filterMap.mpr ⟨e, he, roundTripElem_canonical sem e hcanE⟩
  have hpos : 0 < ((d.take 19).filterMap (roundTripElem sem)).countP
      (fun x => x.text == tx) :=
    List.countP_pos_iff.mpr ⟨e, hmem, by simp [hetx]⟩
  rw [List.countP_cons_of_pos _ _ (by simp)]
  omega

/-- C8 (witness): appending "dup" onto a store already holding an entry
with text "dup" leaves the text occurring twice. -/
theorem c8_duplicates_allowed_witness :
    2 ≤ (((⟨"dup", ⟨simpleSem.clockIso 0⟩⟩ : RecentSearch) ::
          (([⟨"dup", ⟨"Z"⟩⟩] : List RecentSearch).take 19).filterMap
            (roundTripElem simpleSem)).countP (fun x => x.text == "dup")) :=
  (c8_duplicates_allowed simpleSem simpleSem_wf
      [("k", Payload.json (Json.arr [extEntryJson ("dup", "Z")]))] "k" "dup" 0
      (by decide) [⟨"dup", ⟨"Z"⟩⟩] rfl).2
    ⟨"dup", ⟨"Z"⟩⟩ (by decide) ⟨by decide, by decide, by decide⟩ rfl

/-- C9: `load` is total at the public interface — for every store state,
key and read-failure behaviour it never errors and always resolves to a
list, never to `undefined` (`none`), despite the declared
`RecentSearch[] | undefined` return type. -/
theorem c9_load_total (st : Store) (key : String) (f : Bool) :
    ∃ l, getRecentSearches st key f = Except.ok (some l) :=
  getRecentSearches_total st key f

/-- C10: `load` does not enforce the capacity bound on read: a persisted
payload holding more than 20 valid entries is returned in full, in
persisted order; truncation to 20 happens only in `append`'s write-back,
whose written collection never exceeds 20 elements. -/
theorem c10_no_read_truncation (st : Store) (key : String)
    (items : List (String × String))
    (hfields : ∀ p ∈ items, p.1 ≠ "" ∧ p.2 ≠ "")
    (hlen : 20 < items.length) :
    getRecentSearches
        (storeSet st key (Payload.json (Json.arr (items.map extEntryJson)))) key false
      = Except.ok (some (items.map fun p => ⟨p.1, ⟨p.2⟩⟩))
    ∧ 20 < (items.map fun p : String × String => (⟨p.1, ⟨p.2⟩⟩ : RecentSearch)).length
    ∧ ∀ (sem : DateSem) (st2 : Store) (e : RecentSearch),
        storedCollLen ((appendRecentSearchesStore sem st2 key e false false).2) key ≤ 20 := by
  refine ⟨?_, ?_, ?_⟩
  · have hp := parseElems_ext items hfields
    simp [getRecentSearches, getRecentSearchesBody, getLocalStorageItem,
      storeGet_storeSet_self, Json.truthy, hp]
  · rw [List.length_map]
    exact hlen
  · intro sem st2 e
    obtain ⟨d, hd⟩ := getRecentSearches_total st2 key false
    have heff := appendStore_effect sem st2 key e d hd
    have hst : (appendRecentSearchesStore sem st2 key e false false).2
        = storeSet st2 key (Payload.json (Json.arr
            (((e :: d).take 20).map (entryToJson sem)))) := by
      rw [heff]
    rw [hst]
    simp only [storedCollLen, storeGet_storeSet_self]
    rw [List.length_map, List.length_take]
    exact min_le_left _ _

/-- C10 (witness): a 21-entry external payload loads in full. -/
theorem c10_no_read_truncation_witness :
    getRecentSearches
        (storeSet [] "k" (Payload.json (Json.arr (items21.map extEntryJson)))) "k" false
      = Except.ok (some (items21.map fun p => ⟨p.1, ⟨p.2⟩⟩)) :=
  (c10_no_read_truncation [] "k" items21 (by decide) (by decide)).1
